import Mathlib

/-!
A shallow embedding of the confman Go library (package confman): a manager
for per-application configuration directories.  Filesystem state is made
explicit as a value of type `Sys`; every library operation is translated
into a Lean function threading that state.  Paths are unix-style
slash-separated strings; `clean` and `goJoin` model Go's `filepath.Clean`
and `filepath.Join` on such paths.  OS behaviour that the library relies on
(`os.OpenFile` flag semantics, `os.Mkdir`, `os.RemoveAll`, closing a file
twice) is modelled lexically: permission failures, parent-directory checks
and I/O on directory handles are outside the model.
-/

/-- A path segment: the characters between two separators. -/
abbrev Seg := List Char

def dotSeg : Seg := ['.']

def dotdotSeg : Seg := ['.', '.']

/-- Splitting a character list on the separator, like Go strings.Split(s, "/"). -/
def splitSlash : List Char → List Seg
  | [] => [[]]
  | c :: cs =>
    match splitSlash cs with
    | [] => [[]]
    | s :: ss => if c = '/' then [] :: s :: ss else (c :: s) :: ss

/-- Joining segments with the separator, like Go strings.Join(l, "/"). -/
def joinSegs : List Seg → List Char
  | [] => []
  | [s] => s
  | s :: t :: ts => s ++ '/' :: joinSegs (t :: ts)

/-- One step of the lexical simplification performed by filepath.Clean:
empty and dot segments are dropped, a dotdot segment pops the last kept
segment (or is dropped at the root, or kept at the front of a relative
path), and any other segment is kept.  The accumulator is in reverse
order. -/
def pushSeg (rooted : Bool) (acc : List Seg) (s : Seg) : List Seg :=
  if s = [] ∨ s = dotSeg then acc
  else if s = dotdotSeg then
    match acc with
    | [] => if rooted then [] else [dotdotSeg]
    | a :: as => if a = dotdotSeg then dotdotSeg :: a :: as else as
  else s :: acc

def procSegs (rooted : Bool) (acc : List Seg) : List Seg → List Seg
  | [] => acc.reverse
  | s :: ss => procSegs rooted (pushSeg rooted acc s) ss

def isRooted : List Char → Bool
  | '/' :: _ => true
  | _ => false

/-- Model of Go filepath.Clean for slash-separated paths: the empty path
cleans to ".", and otherwise the path is split into segments, lexically
simplified, and reassembled (a rooted path keeps its leading separator; a
path whose segments all vanish becomes "/" or "."). -/
def cleanChars (p : List Char) : List Char :=
  if p = [] then dotSeg
  else
    match procSegs (isRooted p) [] (splitSlash p) with
    | [] => if isRooted p then ['/'] else dotSeg
    | s :: ss => (if isRooted p then ['/'] else []) ++ joinSegs (s :: ss)

def clean (s : String) : String := ⟨cleanChars s.data⟩

/-- Model of Go filepath.Join: drop empty elements, join the rest with the
separator and Clean the result; an all-empty input yields the empty
string. -/
def goJoin (parts : List String) : String :=
  match (parts.filter (fun x => decide (¬ x = ""))).map String.data with
  | [] => ""
  | l => ⟨cleanChars (joinSegs l)⟩

/-- Errors surfaced by the library: the two domain errors produced with
fmt.Errorf in verifyExists / verifyNotExists, and the modelled os errors
(ErrNotExist, ErrExist, ErrClosed). -/
inductive Err where
  | doesNotExist (name : String)
  | alreadyExists (name : String)
  | enoent (path : String)
  | eexist (path : String)
  | errClosed
  deriving Repr, DecidableEq

/-- The subset of os.OpenFile flags the library uses.  O_RDONLY is the
absence of all of them. -/
structure Flags where
  wronly : Bool
  rdwr : Bool
  create : Bool
  excl : Bool
  trunc : Bool
  deriving Repr, DecidableEq

/-- O_RDONLY -/
def flagsRead : Flags := ⟨false, false, false, false, false⟩

/-- O_WRONLY|O_TRUNC, used by OpenWrite -/
def flagsWriteTrunc : Flags := ⟨true, false, false, false, true⟩

/-- O_RDWR|O_CREATE|O_EXCL, used by OpenCreate -/
def flagsCreateExcl : Flags := ⟨false, true, true, true, false⟩

/-- Content and permission bits of one regular file. -/
structure FileData where
  content : List Nat
  perm : Nat
  deriving Repr, DecidableEq

abbrev Bytes := List Nat

/-- The modelled filesystem plus the process's open-file table: existing
directories, regular files, the open handles (id paired with the path it
was opened on) and a fresh-handle counter. -/
structure Sys where
  dirs : List String
  files : List (String × FileData)
  openIds : List (Nat × String)
  nextId : Nat
  deriving Repr, DecidableEq

def Sys.lookupFile (s : Sys) (p : String) : Option FileData :=
  (s.files.find? (fun e => e.1 = p)).map (fun e => e.2)

def insertFile : List (String × FileData) → String → FileData → List (String × FileData)
  | [], p, fd => [(p, fd)]
  | e :: es, p, fd => if e.1 = p then (p, fd) :: es else e :: insertFile es p fd

def Sys.setFile (s : Sys) (p : String) (fd : FileData) : Sys :=
  { s with files := insertFile s.files p fd }

/-- Whether the path names an existing entry (file or directory): the
boolean os.Stat succeeds on. -/
def existsPath (s : Sys) (p : String) : Bool :=
  (s.lookupFile p).isSome || s.dirs.contains p

def Sys.isOpen (s : Sys) (id : Nat) : Bool :=
  s.openIds.any (fun e => e.1 = id)

/-- Model of os.OpenFile restricted to the flag combinations the library
uses: exclusive creation fails on any existing entry; an absent file is
created (empty, with the given permission bits) only under O_CREATE and
is ENOENT otherwise; O_TRUNC empties an existing file.  A fresh handle id
is returned and recorded open. -/
def osOpenFile (s : Sys) (p : String) (fl : Flags) (perm : Nat) : Except Err Nat × Sys :=
  if s.dirs.contains p then
    if fl.create && fl.excl then (.error (.eexist p), s)
    else (.ok s.nextId,
      { s with openIds := (s.nextId, p) :: s.openIds, nextId := s.nextId + 1 })
  else
    match s.lookupFile p with
    | some fd =>
      if fl.create && fl.excl then (.error (.eexist p), s)
      else
        let s1 := if fl.trunc then s.setFile p { fd with content := [] } else s
        (.ok s1.nextId,
          { s1 with openIds := (s1.nextId, p) :: s1.openIds, nextId := s1.nextId + 1 })
    | none =>
      if fl.create then
        let s1 := s.setFile p { content := [], perm := perm }
        (.ok s1.nextId,
          { s1 with openIds := (s1.nextId, p) :: s1.openIds, nextId := s1.nextId + 1 })
      else (.error (.enoent p), s)

/-- Writing bytes through an open handle appends to the file it names
(every handle in the model sits at end-of-file, since files are opened
truncated, freshly created, or never written through). -/
def handleWrite (s : Sys) (id : Nat) (bs : Bytes) : Sys :=
  match s.openIds.find? (fun e => e.1 = id) with
  | none => s
  | some e =>
    match s.lookupFile e.2 with
    | none => s
    | some fd => s.setFile e.2 { fd with content := fd.content ++ bs }

/-- Model of io.ReadAll on a handle opened at offset zero. -/
def readAllHandle (s : Sys) (id : Nat) : Except Err Bytes :=
  match s.openIds.find? (fun e => e.1 = id) with
  | none => .error .errClosed
  | some e =>
    match s.lookupFile e.2 with
    | none => .error (.enoent e.2)
    | some fd => .ok fd.content

/-- Model of File.Close: closing an open handle removes it from the open
table; closing anything else reports ErrClosed. -/
def closeHandle (s : Sys) (id : Nat) : Except Err Unit × Sys :=
  if s.isOpen id then
    (.ok (), { s with openIds := s.openIds.filter (fun e => decide (¬ e.1 = id)) })
  else (.error .errClosed, s)

/-- Close with the error discarded, as in a Go deferred close. -/
def closeQuiet (s : Sys) (id : Nat) : Sys := (closeHandle s id).2

/-- Model of os.Mkdir: fails with EEXIST on an existing entry, otherwise
records the directory (directory permission bits are not modelled). -/
def osMkdir (s : Sys) (p : String) (_perm : Nat) : Except Err Unit × Sys :=
  if existsPath s p then (.error (.eexist p), s)
  else (.ok (), { s with dirs := p :: s.dirs })

/-- Model of os.RemoveAll: removes the entry at the path and everything
beneath it. -/
def underOrEq (p q : String) : Bool :=
  q = p || (p.data ++ ['/']).isPrefixOf q.data

def removeAll (s : Sys) (p : String) : Sys :=
  { s with
    dirs := s.dirs.filter (fun d => decide (¬ underOrEq p d = true)),
    files := s.files.filter (fun e => decide (¬ underOrEq p e.1 = true)) }

/-- A registered default: the permission bits for the file to create, and
the generator.  The source's generator is a Go callback func(*Config,
io.Writer) error; it is abstracted here by its observable effect through
the writer: either the bytes it writes, or the error it returns (a
generator that errors is taken to have written nothing, and generators
that touch the Config itself are outside the model). -/
structure FileDefault where
  gen : Except Err Bytes
  perm : Nat

/-- The Config handle: the registered defaults (a map keyed by filename,
modelled as an association list), the closers recorded by the Auto open
variants (handle ids), and the bound directory path. -/
structure Config where
  defaults : List (String × FileDefault)
  closers : List Nat
  path : String

/-- Outcome of an operation that may panic (Go's panic aborts rather than
returning an error value). -/
inductive POr (α : Type) where
  | panicked (msg : String)
  | ok (val : α)

def POr.isPanic {α : Type} : POr α → Bool
  | .panicked _ => true
  | .ok _ => false

/-- Config.child: filepath.Join of the bound path and the name. -/
def Config.child (c : Config) (name : String) : String :=
  goJoin [c.path, name]

/-- Config.Exists, the composition of os.Stat on the child path with the
ErrNotExist test: in the model a stat only distinguishes present from
absent, so the error leg is absent. -/
def Config.Exists (c : Config) (name : String) (s : Sys) : Bool :=
  existsPath s (c.child name)

/-- Config.OpenRaw: os.OpenFile on the child path. -/
def Config.OpenRaw (c : Config) (name : String) (fl : Flags) (perm : Nat) (s : Sys) :
    Except Err Nat × Sys :=
  osOpenFile s (c.child name) fl perm

/-- Config.OpenCreate: OpenRaw with O_RDWR|O_CREATE|O_EXCL. -/
def Config.OpenCreate (c : Config) (name : String) (perm : Nat) (s : Sys) :
    Except Err Nat × Sys :=
  c.OpenRaw name flagsCreateExcl perm s

/-- Config.verifyExists: succeed if the child exists; otherwise, if a
default is registered, open the file with OpenCreate under the registered
permission bits and run the generator (the handle is not closed and not
tracked, and the incidental diagnostic print on the error leg has no
model); otherwise fail with the does-not-exist domain error. -/
def Config.verifyExists (c : Config) (name : String) (s : Sys) : Except Err Unit × Sys :=
  if c.Exists name s then (.ok (), s)
  else
    match c.defaults.find? (fun e => e.1 = name) with
    | some e =>
      match c.OpenCreate name e.2.perm s with
      | (.error err, s1) => (.error err, s1)
      | (.ok id, s1) =>
        match e.2.gen with
        | .error err => (.error err, s1)
        | .ok bs => (.ok (), handleWrite s1 id bs)
    | none => (.error (.doesNotExist name), s)

/-- Config.verifyNotExists (present in the source but never called by the
create accessors). -/
def Config.verifyNotExists (c : Config) (name : String) (s : Sys) : Except Err Unit :=
  if c.Exists name s then .error (.alreadyExists name) else .ok ()

/-- Config.OpenRead: the ensure-exists-or-default gate, then O_RDONLY. -/
def Config.OpenRead (c : Config) (name : String) (s : Sys) : Except Err Nat × Sys :=
  match c.verifyExists name s with
  | (.error e, s1) => (.error e, s1)
  | (.ok _, s1) => c.OpenRaw name flagsRead 0 s1

/-- Config.OpenWrite: the ensure-exists-or-default gate, then
O_WRONLY|O_TRUNC. -/
def Config.OpenWrite (c : Config) (name : String) (s : Sys) : Except Err Nat × Sys :=
  match c.verifyExists name s with
  | (.error e, s1) => (.error e, s1)
  | (.ok _, s1) => c.OpenRaw name flagsWriteTrunc 0 s1

/-- Config.OpenReadAuto: OpenRead plus addCloser on success. -/
def Config.OpenReadAuto (c : Config) (name : String) (s : Sys) :
    Except Err Nat × Config × Sys :=
  match c.OpenRead name s with
  | (.error e, s1) => (.error e, c, s1)
  | (.ok id, s1) => (.ok id, { c with closers := c.closers ++ [id] }, s1)

/-- Config.OpenWriteAuto: OpenWrite plus addCloser on success. -/
def Config.OpenWriteAuto (c : Config) (name : String) (s : Sys) :
    Except Err Nat × Config × Sys :=
  match c.OpenWrite name s with
  | (.error e, s1) => (.error e, c, s1)
  | (.ok id, s1) => (.ok id, { c with closers := c.closers ++ [id] }, s1)

/-- Config.OpenCreateAuto: OpenCreate plus addCloser on success. -/
def Config.OpenCreateAuto (c : Config) (name : String) (perm : Nat) (s : Sys) :
    Except Err Nat × Config × Sys :=
  match c.OpenCreate name perm s with
  | (.error e, s1) => (.error e, c, s1)
  | (.ok id, s1) => (.ok id, { c with closers := c.closers ++ [id] }, s1)

/-- Config.Read: OpenRead, io.ReadAll, deferred Close. -/
def Config.Read (c : Config) (name : String) (s : Sys) : Except Err Bytes × Sys :=
  match c.OpenRead name s with
  | (.error e, s1) => (.error e, s1)
  | (.ok id, s1) => (readAllHandle s1 id, closeQuiet s1 id)

def strBytes (s : String) : Bytes := s.data.map Char.toNat

def bytesStr (b : Bytes) : String := ⟨b.map Char.ofNat⟩

/-- Config.ReadString: Read then convert to a string. -/
def Config.ReadString (c : Config) (name : String) (s : Sys) : Except Err String × Sys :=
  match c.Read name s with
  | (.error e, s1) => (.error e, s1)
  | (.ok b, s1) => (.ok (bytesStr b), s1)

/-- Config.Write: OpenWrite, write all of data, deferred Close; returns the
byte count written. -/
def Config.Write (c : Config) (name : String) (data : Bytes) (s : Sys) :
    Except Err Nat × Sys :=
  match c.OpenWrite name s with
  | (.error e, s1) => (.error e, s1)
  | (.ok id, s1) => (.ok data.length, closeQuiet (handleWrite s1 id data) id)

/-- Config.WriteString: Write on the bytes of the string. -/
def Config.WriteString (c : Config) (name : String) (str : String) (s : Sys) :
    Except Err Nat × Sys :=
  c.Write name (strBytes str) s

/-- Config.Create: OpenCreate, write all of data, deferred Close. -/
def Config.Create (c : Config) (name : String) (data : Bytes) (perm : Nat) (s : Sys) :
    Except Err Nat × Sys :=
  match c.OpenCreate name perm s with
  | (.error e, s1) => (.error e, s1)
  | (.ok id, s1) => (.ok data.length, closeQuiet (handleWrite s1 id data) id)

/-- Config.CreateString: Create on the bytes of the string. -/
def Config.CreateString (c : Config) (name : String) (str : String) (perm : Nat) (s : Sys) :
    Except Err Nat × Sys :=
  c.Create name (strBytes str) perm s

/-- The common shape of the typed write accessors (WriteJson, WriteToml,
WriteCsv, WriteXml): OpenWrite, run the streaming encoder against the
handle, deferred Close.  The third-party codec is abstracted by its
output: either the encoded bytes or the encoder's error. -/
def Config.writeCodec (c : Config) (name : String) (payload : Except Err Bytes) (s : Sys) :
    Except Err Unit × Sys :=
  match c.OpenWrite name s with
  | (.error e, s1) => (.error e, s1)
  | (.ok id, s1) =>
    match payload with
    | .error e => (.error e, closeQuiet s1 id)
    | .ok bs => (.ok (), closeQuiet (handleWrite s1 id bs) id)

/-- The common shape of the typed read accessors (ReadJson, ReadToml,
ReadCsv, ReadXml): OpenRead, run the streaming decoder on the handle,
deferred Close.  The codec is abstracted by a function from the file's
bytes to the decoded value or the decoder's error. -/
def Config.readCodec {α : Type} (c : Config) (name : String) (dec : Bytes → Except Err α)
    (s : Sys) : Except Err α × Sys :=
  match c.OpenRead name s with
  | (.error e, s1) => (.error e, s1)
  | (.ok id, s1) =>
    match readAllHandle s1 id with
    | .error e => (.error e, closeQuiet s1 id)
    | .ok bs => (dec bs, closeQuiet s1 id)

/-- The common shape of the typed create accessors (CreateJson, CreateToml,
CreateCsv, CreateXml). -/
def Config.createCodec (c : Config) (name : String) (payload : Except Err Bytes)
    (perm : Nat) (s : Sys) : Except Err Unit × Sys :=
  match c.OpenCreate name perm s with
  | (.error e, s1) => (.error e, s1)
  | (.ok id, s1) =>
    match payload with
    | .error e => (.error e, closeQuiet s1 id)
    | .ok bs => (.ok (), closeQuiet (handleWrite s1 id bs) id)

/-- Config.WriteJson with the json encoder abstracted as enc. -/
def Config.WriteJson {α : Type} (c : Config) (name : String) (enc : α → Except Err Bytes)
    (v : α) (s : Sys) : Except Err Unit × Sys :=
  c.writeCodec name (enc v) s

/-- Config.ReadJson with the json decoder abstracted as dec. -/
def Config.ReadJson {α : Type} (c : Config) (name : String) (dec : Bytes → Except Err α)
    (s : Sys) : Except Err α × Sys :=
  c.readCodec name dec s

/-- Config.WriteToml with the toml encoder abstracted as enc. -/
def Config.WriteToml {α : Type} (c : Config) (name : String) (enc : α → Except Err Bytes)
    (v : α) (s : Sys) : Except Err Unit × Sys :=
  c.writeCodec name (enc v) s

/-- Config.ReadToml with the toml decoder abstracted as dec. -/
def Config.ReadToml {α : Type} (c : Config) (name : String) (dec : Bytes → Except Err α)
    (s : Sys) : Except Err α × Sys :=
  c.readCodec name dec s

/-- Config.WriteCsv with the csv writer abstracted as enc over the
records. -/
def Config.WriteCsv (c : Config) (name : String) (enc : List (List String) → Except Err Bytes)
    (records : List (List String)) (s : Sys) : Except Err Unit × Sys :=
  c.writeCodec name (enc records) s

/-- Config.ReadCsv with the csv reader abstracted as dec. -/
def Config.ReadCsv (c : Config) (name : String)
    (dec : Bytes → Except Err (List (List String))) (s : Sys) :
    Except Err (List (List String)) × Sys :=
  c.readCodec name dec s

/-- Config.WriteXml with the xml encoder abstracted as enc. -/
def Config.WriteXml {α : Type} (c : Config) (name : String) (enc : α → Except Err Bytes)
    (v : α) (s : Sys) : Except Err Unit × Sys :=
  c.writeCodec name (enc v) s

/-- Config.ReadXml with the xml decoder abstracted as dec. -/
def Config.ReadXml {α : Type} (c : Config) (name : String) (dec : Bytes → Except Err α)
    (s : Sys) : Except Err α × Sys :=
  c.readCodec name dec s

/-- The loop body of Config.Close: close every closer in order, collecting
the errors of the failing closes. -/
def closeAll : List Nat → Sys → List Err × Sys
  | [], s => ([], s)
  | id :: rest, s =>
    match closeHandle s id with
    | (.error e, s1) =>
      match closeAll rest s1 with
      | (errs, s2) => (e :: errs, s2)
    | (.ok _, s1) => closeAll rest s1

/-- Config.Close: closes every tracked closer and returns the collected
error list. -/
def Config.Close (c : Config) (s : Sys) : List Err × Sys :=
  closeAll c.closers s

/-- Config.Delete: os.RemoveAll on the bound path. -/
def Config.Delete (c : Config) (s : Sys) : Sys :=
  removeAll s c.path

/-- Config.DeleteFile: as written in the source, os.RemoveAll on the bound
path, with the name argument unused. -/
def Config.DeleteFile (c : Config) (_name : String) (s : Sys) : Sys :=
  removeAll s c.path

/-- Config.DefaultFunc: registering a second default for the same name
panics; otherwise the default is recorded. -/
def Config.DefaultFunc (c : Config) (name : String) (perm : Nat) (g : Except Err Bytes) :
    POr Config :=
  if c.defaults.any (fun e => e.1 = name) then
    .panicked ("'" ++ name ++ "' already has a default")
  else .ok { c with defaults := c.defaults ++ [(name, { gen := g, perm := perm })] }

/-- Config.Default: DefaultFunc with a generator writing a fixed byte
payload. -/
def Config.Default (c : Config) (name : String) (perm : Nat) (data : Bytes) : POr Config :=
  c.DefaultFunc name perm (.ok data)

/-- Config.DefaultString: Default on the bytes of the string. -/
def Config.DefaultString (c : Config) (name : String) (perm : Nat) (str : String) :
    POr Config :=
  c.Default name perm (strBytes str)

/-- The private Config.create: a no-op when the bound path already exists,
os.Mkdir with ModeDir|0o777 otherwise. -/
def Config.createDir (c : Config) (s : Sys) : Except Err Unit × Sys :=
  if c.Exists "" s then (.ok (), s)
  else osMkdir s c.path 511

/-- OpenSpecific: clean the path, panic if the cleaned path is empty,
otherwise build the handle and ensure its directory exists. -/
def OpenSpecific (path : String) (s : Sys) : POr (Except Err Config × Sys) :=
  let p := clean path
  if p = "" then .panicked "path cannot be empty"
  else
    let c : Config := { defaults := [], closers := [], path := p }
    match c.createDir s with
    | (.error e, s1) => .ok (.error e, s1)
    | (.ok _, s1) => .ok (.ok c, s1)

/-- The Go type Path (a defined string type). -/
structure GoPath where
  str : String
  deriving Repr, DecidableEq

/-- Path.Join: filepath.Join of the receiver followed by the elements. -/
def GoPath.Join (p : GoPath) (elem : List String) : GoPath :=
  ⟨goJoin (p.str :: elem)⟩

/-- The semantics of the unsafe.Slice / unsafe.SliceData reinterpretation
in Path.JoinP: the sequence of Path values viewed elementwise as its
underlying string values (Path's representation is exactly a string, so
the memory reinterpretation denotes this elementwise view). -/
def punPathsAsStrings (l : List GoPath) : List String :=
  l.map (fun e => e.str)

/-- Path.JoinP: Join applied to the reinterpreted slice. -/
def GoPath.JoinP (p : GoPath) (elem : List GoPath) : GoPath :=
  p.Join (punPathsAsStrings elem)

/-- Modelled from the spec: the reimplementation of JoinP it asks for,
extracting the underlying text of each wrapped value into a freshly built
sequence and calling Join on it. -/
def joinPViaFreshStrings (p : GoPath) (elem : List GoPath) : GoPath :=
  p.Join (elem.map (fun e => e.str))

/-! Lemmas about the path model: the lexical simplification of `cleanChars`
produces normalised segment lists, and is therefore idempotent and never
empty. -/

/-- A segment that survives cleaning: nonempty, not ".", no separator. -/
def GoodSeg (s : Seg) : Prop := s ≠ [] ∧ s ≠ dotSeg ∧ '/' ∉ s

/-- The segment lists `cleanChars` can output: good segments, with ".."
absent when rooted and confined to a leading run otherwise. -/
def NormalSegs (rooted : Bool) (l : List Seg) : Prop :=
  (∀ s ∈ l, GoodSeg s) ∧
  (rooted = true → dotdotSeg ∉ l) ∧
  (rooted = false → ∃ k rest, l = List.replicate k dotdotSeg ++ rest ∧ dotdotSeg ∉ rest)

/-- The invariant of the (reversed) accumulator of `procSegs`. -/
def AccOk (rooted : Bool) (acc : List Seg) : Prop :=
  (∀ s ∈ acc, GoodSeg s) ∧
  (rooted = true → dotdotSeg ∉ acc) ∧
  (rooted = false → ∃ k rest, acc = rest ++ List.replicate k dotdotSeg ∧ dotdotSeg ∉ rest)

lemma accOk_nil (rooted : Bool) : AccOk rooted [] :=
  ⟨by simp, by simp, fun _ => ⟨0, [], by simp, by simp⟩⟩

lemma goodSeg_dotdot : GoodSeg dotdotSeg := ⟨by decide, by decide, by decide⟩

lemma accOk_pushSeg {rooted : Bool} {acc : List Seg} {s : Seg}
    (h : AccOk rooted acc) (hs : '/' ∉ s) : AccOk rooted (pushSeg rooted acc s) := by
  obtain ⟨hall, hroot, hrel⟩ := h
  unfold pushSeg
  by_cases h1 : s = [] ∨ s = dotSeg
  · rw [if_pos h1]; exact ⟨hall, hroot, hrel⟩
  · rw [if_neg h1]
    by_cases h2 : s = dotdotSeg
    · rw [if_pos h2]
      cases acc with
      | nil =>
        cases hb : rooted with
        | true => exact accOk_nil true
        | false =>
          refine ⟨?_, by simp, fun _ => ⟨1, [], by simp, by simp⟩⟩
          intro t ht
          simp at ht
          rw [ht]
          exact goodSeg_dotdot
      | cons a as =>
        show AccOk rooted (if a = dotdotSeg then dotdotSeg :: a :: as else as)
        by_cases h3 : a = dotdotSeg
        · rw [if_pos h3]
          cases hb : rooted with
          | true =>
            rw [hb] at hroot
            exact absurd (by simp [h3]) (hroot rfl)
          | false =>
            rw [hb] at hrel
            obtain ⟨k, rest, he, hnr⟩ := hrel rfl
            cases rest with
            | cons x xs =>
              have hax : a = x := by simpa using congrArg List.head? he
              exact absurd (by simp [← hax, h3]) hnr
            | nil =>
              simp only [List.nil_append] at he
              refine ⟨?_, by simp, fun _ => ⟨k + 1, [], ?_, by simp⟩⟩
              · intro t ht
                rcases List.mem_cons.mp ht with h4 | h4
                · rw [h4]; exact goodSeg_dotdot
                · exact hall t h4
              · rw [he, List.replicate_succ]
                simp
        · rw [if_neg h3]
          refine ⟨fun t ht => hall t (List.mem_cons_of_mem a ht), ?_, ?_⟩
          · intro hr
            exact fun hm => hroot hr (List.mem_cons_of_mem a hm)
          · intro hr
            obtain ⟨k, rest, he, hnr⟩ := hrel hr
            cases rest with
            | nil =>
              simp only [List.nil_append] at he
              cases k with
              | zero => simp at he
              | succ j =>
                rw [List.replicate_succ] at he
                have : a = dotdotSeg := by simpa using congrArg List.head? he
                exact absurd this h3
            | cons x xs =>
              have h5 : a = x ∧ as = xs ++ List.replicate k dotdotSeg := by
                constructor
                · simpa using congrArg List.head? he
                · simpa using congrArg List.tail he
              exact ⟨k, xs, h5.2, fun hm => hnr (by simp [hm])⟩
    · rw [if_neg h2]
      have hgood : GoodSeg s := ⟨fun h => h1 (Or.inl h), fun h => h1 (Or.inr h), hs⟩
      refine ⟨?_, ?_, ?_⟩
      · intro t ht
        rcases List.mem_cons.mp ht with h4 | h4
        · rw [h4]; exact hgood
        · exact hall t h4
      · intro hr hm
        rcases List.mem_cons.mp hm with h4 | h4
        · exact h2 h4.symm
        · exact hroot hr h4
      · intro hr
        obtain ⟨k, rest, he, hnr⟩ := hrel hr
        refine ⟨k, s :: rest, by rw [he]; simp, ?_⟩
        intro hm
        rcases List.mem_cons.mp hm with h4 | h4
        · exact h2 h4.symm
        · exact hnr h4

lemma procSegs_accOk {rooted : Bool} (l : List Seg) : ∀ acc : List Seg,
    AccOk rooted acc → (∀ s ∈ l, '/' ∉ s) → NormalSegs rooted (procSegs rooted acc l) := by
  induction l with
  | nil =>
    intro acc h _
    obtain ⟨hall, hroot, hrel⟩ := h
    simp only [procSegs]
    refine ⟨fun s hs => hall s (List.mem_reverse.mp hs), ?_, ?_⟩
    · intro hr
      simpa [List.mem_reverse] using hroot hr
    · intro hr
      obtain ⟨k, rest, he, hnr⟩ := hrel hr
      refine ⟨k, rest.reverse, ?_, by simpa [List.mem_reverse] using hnr⟩
      rw [he]
      simp [List.reverse_append]
  | cons s ss ih =>
    intro acc h hsl
    simp only [procSegs]
    exact ih _ (accOk_pushSeg h (hsl s (by simp))) (fun t ht => hsl t (by simp [ht]))

lemma procSegs_pushAll {rooted : Bool} (l : List Seg) : ∀ acc : List Seg,
    (∀ s ∈ l, s ≠ [] ∧ s ≠ dotSeg ∧ s ≠ dotdotSeg) →
    procSegs rooted acc l = acc.reverse ++ l := by
  induction l with
  | nil => intro acc _; simp [procSegs]
  | cons s ss ih =>
    intro acc hl
    obtain ⟨h1, h2, h3⟩ := hl s (by simp)
    simp only [procSegs]
    have hp : pushSeg rooted acc s = s :: acc := by
      unfold pushSeg
      rw [if_neg (not_or.mpr ⟨h1, h2⟩), if_neg h3]
    rw [hp, ih _ (fun t ht => hl t (by simp [ht]))]
    simp

lemma pushSeg_dotdot_replicate (i : Nat) :
    pushSeg false (List.replicate i dotdotSeg) dotdotSeg
      = List.replicate (i + 1) dotdotSeg := by
  unfold pushSeg
  rw [if_neg (by decide), if_pos rfl]
  cases i with
  | zero => simp
  | succ j => simp [List.replicate_succ]

lemma procSegs_dotdots (k : Nat) : ∀ (i : Nat) (rest : List Seg),
    procSegs false (List.replicate i dotdotSeg) (List.replicate k dotdotSeg ++ rest)
      = procSegs false (List.replicate (i + k) dotdotSeg) rest := by
  induction k with
  | zero => intro i rest; simp
  | succ j ih =>
    intro i rest
    rw [List.replicate_succ, List.cons_append]
    simp only [procSegs]
    rw [pushSeg_dotdot_replicate, ih (i + 1)]
    have harith : i + 1 + j = i + (j + 1) := by omega
    rw [harith]

lemma procSegs_normal_fix {rooted : Bool} {l : List Seg}
    (h : NormalSegs rooted l) : procSegs rooted [] l = l := by
  obtain ⟨hall, hroot, hrel⟩ := h
  cases rooted with
  | true =>
    have hdd := hroot rfl
    have hgood : ∀ s ∈ l, s ≠ [] ∧ s ≠ dotSeg ∧ s ≠ dotdotSeg := by
      intro s hs
      obtain ⟨h1, h2, _⟩ := hall s hs
      exact ⟨h1, h2, fun he => hdd (he ▸ hs)⟩
    rw [procSegs_pushAll l [] hgood]
    simp
  | false =>
    obtain ⟨k, rest, he, hnr⟩ := hrel rfl
    subst he
    have h0 : ([] : List Seg) = List.replicate 0 dotdotSeg := rfl
    rw [h0, procSegs_dotdots]
    have hg : ∀ s ∈ rest, s ≠ [] ∧ s ≠ dotSeg ∧ s ≠ dotdotSeg := by
      intro s hs
      obtain ⟨h1, h2, _⟩ := hall s (by simp [hs])
      exact ⟨h1, h2, fun he2 => hnr (he2 ▸ hs)⟩
    rw [procSegs_pushAll rest _ hg]
    simp

lemma splitSlash_ne_nil (l : List Char) : splitSlash l ≠ [] := by
  cases l with
  | nil => simp [splitSlash]
  | cons c cs =>
    simp only [splitSlash]
    cases h : splitSlash cs with
    | nil => simp
    | cons s ss => by_cases hc : c = '/' <;> simp [hc]

lemma mem_splitSlash (l : List Char) : ∀ s ∈ splitSlash l, '/' ∉ s := by
  induction l with
  | nil =>
    intro s hs
    simp [splitSlash] at hs
    simp [hs]
  | cons c cs ih =>
    intro s hs
    simp only [splitSlash] at hs
    cases h : splitSlash cs with
    | nil => exact absurd h (splitSlash_ne_nil cs)
    | cons a ss =>
      rw [h] at hs
      by_cases hc : c = '/'
      · simp only [if_pos hc] at hs
        rcases List.mem_cons.mp hs with h1 | h1
        · simp [h1]
        · exact ih s (by rw [h]; exact h1)
      · simp only [if_neg hc] at hs
        rcases List.mem_cons.mp hs with h1 | h1
        · subst h1
          intro hmem
          rcases List.mem_cons.mp hmem with h4 | h4
          · exact hc h4.symm
          · exact ih a (by rw [h]; simp) h4
        · exact ih s (by rw [h]; simp [h1])

lemma splitSlash_no_slash {a : List Char} (ha : '/' ∉ a) : splitSlash a = [a] := by
  induction a with
  | nil => rfl
  | cons c cs ih =>
    have hc : ¬ c = '/' := fun h => ha (by simp [h])
    have hcs : '/' ∉ cs := fun h => ha (by simp [h])
    simp only [splitSlash, ih hcs]
    simp [hc]

lemma splitSlash_append {a : List Char} (rest : List Char) (ha : '/' ∉ a) :
    splitSlash (a ++ '/' :: rest) = a :: splitSlash rest := by
  induction a with
  | nil =>
    simp only [List.nil_append, splitSlash]
    cases h : splitSlash rest with
    | nil => exact absurd h (splitSlash_ne_nil rest)
    | cons s ss => simp
  | cons c cs ih =>
    have hc : ¬ c = '/' := fun h => ha (by simp [h])
    have hcs : '/' ∉ cs := fun h => ha (by simp [h])
    rw [List.cons_append]
    simp only [splitSlash, ih hcs]
    simp [hc]

lemma splitSlash_joinSegs (t : List Seg) : ∀ a : Seg, (∀ s ∈ a :: t, '/' ∉ s) →
    splitSlash (joinSegs (a :: t)) = a :: t := by
  induction t with
  | nil =>
    intro a h
    simp only [joinSegs]
    exact splitSlash_no_slash (h a (by simp))
  | cons b ts ih =>
    intro a h
    simp only [joinSegs]
    rw [splitSlash_append _ (h a (by simp))]
    rw [ih b (fun s hs => h s (by simp at hs ⊢; tauto))]

lemma joinSegs_ne_nil {a : Seg} (t : List Seg) (ha : a ≠ []) : joinSegs (a :: t) ≠ [] := by
  cases t with
  | nil => simpa [joinSegs] using ha
  | cons b ts =>
    cases a with
    | nil => exact absurd rfl ha
    | cons x xs => simp [joinSegs]

lemma isRooted_joinSegs {a : Seg} (t : List Seg) (ha : a ≠ []) (hs : '/' ∉ a) :
    isRooted (joinSegs (a :: t)) = false := by
  cases a with
  | nil => exact absurd rfl ha
  | cons x xs =>
    have hx : ¬ x = '/' := fun h => hs (by simp [h])
    cases t with
    | nil => simp [joinSegs, isRooted, hx]
    | cons b ts => simp [joinSegs, isRooted, hx]

theorem cleanChars_cases (p : List Char) :
    cleanChars p = dotSeg ∨ cleanChars p = ['/'] ∨
    ∃ a t, NormalSegs (isRooted p) (a :: t) ∧
      cleanChars p = (if isRooted p then ['/'] else []) ++ joinSegs (a :: t) ∧
      isRooted (cleanChars p) = isRooted p := by
  by_cases hp : p = []
  · left
    simp [cleanChars, hp]
  · rw [cleanChars, if_neg hp]
    cases h : procSegs (isRooted p) [] (splitSlash p) with
    | nil =>
      cases hr : isRooted p
      · left; simp
      · right; left; simp
    | cons a t =>
      right; right
      have hnorm : NormalSegs (isRooted p) (a :: t) := by
        rw [← h]
        exact procSegs_accOk (splitSlash p) [] (accOk_nil _) (mem_splitSlash p)
      refine ⟨a, t, hnorm, rfl, ?_⟩
      obtain ⟨hall, _, _⟩ := hnorm
      obtain ⟨h1, _, h3⟩ := hall a (by simp)
      cases hr : isRooted p
      · simpa using isRooted_joinSegs t h1 h3
      · simp [isRooted]

theorem cleanChars_ne_nil (p : List Char) : cleanChars p ≠ [] := by
  rcases cleanChars_cases p with h | h | ⟨a, t, hnorm, he, _⟩
  · rw [h]; decide
  · rw [h]; decide
  · rw [he]
    obtain ⟨hall, _, _⟩ := hnorm
    obtain ⟨h1, _, _⟩ := hall a (by simp)
    cases isRooted p <;> simp [joinSegs_ne_nil t h1]

theorem cleanChars_idem (p : List Char) : cleanChars (cleanChars p) = cleanChars p := by
  rcases cleanChars_cases p with h | h | ⟨a, t, hnorm, he, hr⟩
  · rw [h]; decide
  · rw [h]; decide
  · have hall := hnorm.1
    obtain ⟨ha1, ha2, ha3⟩ := hall a (by simp)
    have hjoin : splitSlash (joinSegs (a :: t)) = a :: t :=
      splitSlash_joinSegs t a (fun s hs => (hall s hs).2.2)
    have hne : joinSegs (a :: t) ≠ [] := joinSegs_ne_nil t ha1
    cases hb : isRooted p with
    | false =>
      rw [hb] at hr
      rw [hb, if_neg (by simp)] at he
      simp only [List.nil_append] at he
      have hro : isRooted (joinSegs (a :: t)) = false := by rw [← he, hr]
      have hnf : NormalSegs false (a :: t) := hb ▸ hnorm
      rw [he, cleanChars, if_neg hne, hro, hjoin]
      rw [procSegs_normal_fix hnf]
      simp
    | true =>
      rw [hb, if_pos rfl] at he
      simp only [List.cons_append, List.nil_append] at he
      have hnf : NormalSegs true (a :: t) := hb ▸ hnorm
      rw [he, cleanChars, if_neg (by simp)]
      have hro : isRooted ('/' :: joinSegs (a :: t)) = true := by simp [isRooted]
      rw [hro]
      simp only [splitSlash, hjoin]
      simp only [if_true]
      have hstep : procSegs true [] ([] :: a :: t) = procSegs true [] (a :: t) := rfl
      rw [hstep, procSegs_normal_fix hnf]
      simp

theorem clean_idem (s : String) : clean (clean s) = clean s := by
  show (⟨cleanChars (String.data ⟨cleanChars s.data⟩)⟩ : String) = ⟨cleanChars s.data⟩
  rw [show String.data ⟨cleanChars s.data⟩ = cleanChars s.data from rfl]
  rw [cleanChars_idem]

theorem clean_ne_empty (s : String) : clean s ≠ "" := by
  simp only [clean]
  intro h
  exact cleanChars_ne_nil s.data (congrArg String.data h)

/-! Lemmas about the filesystem model. -/

lemma goJoin_pair_empty (q : String) (hq : q ≠ "") : goJoin [q, ""] = clean q := by
  unfold goJoin
  have h1 : decide (¬ q = "") = true := by simp [hq]
  have h2 : decide (¬ "" = "") = false := by simp
  simp only [List.filter, h1, h2]
  rfl

@[simp] lemma setFile_dirs (s : Sys) (p : String) (fd : FileData) :
    (s.setFile p fd).dirs = s.dirs := rfl

@[simp] lemma setFile_openIds (s : Sys) (p : String) (fd : FileData) :
    (s.setFile p fd).openIds = s.openIds := rfl

@[simp] lemma setFile_nextId (s : Sys) (p : String) (fd : FileData) :
    (s.setFile p fd).nextId = s.nextId := rfl

@[simp] lemma setFile_files (s : Sys) (p : String) (fd : FileData) :
    (s.setFile p fd).files = insertFile s.files p fd := rfl

lemma find?_insertFile_self (l : List (String × FileData)) (p : String) (fd : FileData) :
    (insertFile l p fd).find? (fun e => e.1 = p) = some (p, fd) := by
  induction l with
  | nil => simp [insertFile]
  | cons e es ih =>
    by_cases h : e.1 = p
    · simp [insertFile, h]
    · simp [insertFile, h, ih]

lemma find?_insertFile_ne (l : List (String × FileData)) (p q : String) (fd : FileData)
    (h : ¬ q = p) :
    (insertFile l p fd).find? (fun e => e.1 = q) = l.find? (fun e => e.1 = q) := by
  have hpq : ¬ p = q := fun hc => h hc.symm
  induction l with
  | nil =>
    show List.find? (fun e => decide (e.1 = q)) [(p, fd)] = _
    rw [List.find?_cons_of_neg _ (by simpa using hpq)]
  | cons e es ih =>
    show List.find? (fun e => decide (e.1 = q))
        (if e.1 = p then (p, fd) :: es else e :: insertFile es p fd) = _
    by_cases he : e.1 = p
    · have hne : ¬ e.1 = q := by rw [he]; exact hpq
      rw [if_pos he, List.find?_cons_of_neg _ (by simpa using hpq),
        List.find?_cons_of_neg _ (by simpa using hne)]
    · rw [if_neg he]
      by_cases heq : e.1 = q
      · rw [List.find?_cons_of_pos _ (by simpa using heq),
          List.find?_cons_of_pos _ (by simpa using heq)]
      · rw [List.find?_cons_of_neg _ (by simpa using heq),
          List.find?_cons_of_neg _ (by simpa using heq), ih]

lemma lookupFile_setFile_self (s : Sys) (p : String) (fd : FileData) :
    (s.setFile p fd).lookupFile p = some fd := by
  simp [Sys.lookupFile, find?_insertFile_self]

lemma lookupFile_setFile_ne (s : Sys) (p q : String) (fd : FileData) (h : ¬ q = p) :
    (s.setFile p fd).lookupFile q = s.lookupFile q := by
  simp [Sys.lookupFile, find?_insertFile_ne _ _ _ _ h]

lemma insertFile_insertFile (l : List (String × FileData)) (p : String) (a b : FileData) :
    insertFile (insertFile l p a) p b = insertFile l p b := by
  induction l with
  | nil => simp [insertFile]
  | cons e es ih =>
    by_cases h : e.1 = p
    · simp [insertFile, h]
    · simp [insertFile, h, ih]

@[simp] lemma closeQuiet_files (s : Sys) (id : Nat) : (closeQuiet s id).files = s.files := by
  unfold closeQuiet closeHandle
  split <;> rfl

@[simp] lemma closeQuiet_dirs (s : Sys) (id : Nat) : (closeQuiet s id).dirs = s.dirs := by
  unfold closeQuiet closeHandle
  split <;> rfl

@[simp] lemma closeQuiet_nextId (s : Sys) (id : Nat) : (closeQuiet s id).nextId = s.nextId := by
  unfold closeQuiet closeHandle
  split <;> rfl

lemma closeQuiet_lookupFile (s : Sys) (id : Nat) (p : String) :
    (closeQuiet s id).lookupFile p = s.lookupFile p := by
  unfold Sys.lookupFile
  rw [closeQuiet_files]

@[simp] lemma handleWrite_dirs (s : Sys) (id : Nat) (bs : Bytes) :
    (handleWrite s id bs).dirs = s.dirs := by
  unfold handleWrite
  split
  · rfl
  · split <;> rfl

@[simp] lemma handleWrite_openIds (s : Sys) (id : Nat) (bs : Bytes) :
    (handleWrite s id bs).openIds = s.openIds := by
  unfold handleWrite
  split
  · rfl
  · split <;> rfl

@[simp] lemma handleWrite_nextId (s : Sys) (id : Nat) (bs : Bytes) :
    (handleWrite s id bs).nextId = s.nextId := by
  unfold handleWrite
  split
  · rfl
  · split <;> rfl

lemma handleWrite_head {s : Sys} {id : Nat} {p : String} {rest : List (Nat × String)}
    {fd : FileData} (ho : s.openIds = (id, p) :: rest)
    (hl : s.lookupFile p = some fd) (bs : Bytes) :
    handleWrite s id bs = s.setFile p { content := fd.content ++ bs, perm := fd.perm } := by
  unfold handleWrite
  rw [ho]
  simp [hl]

lemma readAllHandle_head {s : Sys} {id : Nat} {p : String} {rest : List (Nat × String)}
    {fd : FileData} (ho : s.openIds = (id, p) :: rest)
    (hl : s.lookupFile p = some fd) :
    readAllHandle s id = .ok fd.content := by
  unfold readAllHandle
  rw [ho]
  simp [hl]

lemma existsPath_false_elim {s : Sys} {p : String} (h : existsPath s p = false) :
    s.lookupFile p = none ∧ s.dirs.contains p = false := by
  constructor
  · rcases hf : s.lookupFile p with _ | fd
    · rfl
    · rw [existsPath, hf] at h
      simp at h
  · rw [existsPath] at h
    exact (Bool.or_eq_false_iff.mp h).2

lemma existsPath_some {s : Sys} {p : String} {fd : FileData}
    (h : s.lookupFile p = some fd) : existsPath s p = true := by
  simp [existsPath, h]

lemma osOpenFile_excl_exists {s : Sys} {p : String} {perm : Nat}
    (h : existsPath s p = true) :
    osOpenFile s p flagsCreateExcl perm = (.error (.eexist p), s) := by
  unfold osOpenFile
  cases hb : s.dirs.contains p with
  | true => simp [hb, flagsCreateExcl]
  | false =>
    rcases hf : s.lookupFile p with _ | fd
    · rw [existsPath, hf, hb] at h
      simp at h
    · simp [hb, hf, flagsCreateExcl]

lemma osOpenFile_read_file {s : Sys} {p : String} {fd : FileData}
    (hf : s.lookupFile p = some fd) (hd : s.dirs.contains p = false) :
    osOpenFile s p flagsRead 0 =
      (.ok s.nextId,
        { s with openIds := (s.nextId, p) :: s.openIds, nextId := s.nextId + 1 }) := by
  unfold osOpenFile
  simp [hd, hf, flagsRead]

lemma osOpenFile_write_file {s : Sys} {p : String} {fd : FileData}
    (hf : s.lookupFile p = some fd) (hd : s.dirs.contains p = false) :
    osOpenFile s p flagsWriteTrunc 0 =
      (.ok s.nextId,
        { dirs := s.dirs, files := insertFile s.files p { content := [], perm := fd.perm },
          openIds := (s.nextId, p) :: s.openIds, nextId := s.nextId + 1 }) := by
  have hd2 : p ∉ s.dirs := by simpa using hd
  unfold osOpenFile
  simp [hd, hd2, hf, flagsWriteTrunc, Sys.setFile]

lemma osOpenFile_create_new {s : Sys} {p : String} {perm : Nat}
    (hf : s.lookupFile p = none) (hd : s.dirs.contains p = false) :
    osOpenFile s p flagsCreateExcl perm =
      (.ok s.nextId,
        { dirs := s.dirs, files := insertFile s.files p { content := [], perm := perm },
          openIds := (s.nextId, p) :: s.openIds, nextId := s.nextId + 1 }) := by
  have hd2 : p ∉ s.dirs := by simpa using hd
  unfold osOpenFile
  simp [hd, hd2, hf, flagsCreateExcl, Sys.setFile]

lemma osOpenFile_absent {s : Sys} {p : String} {fl : Flags} {perm : Nat}
    (hf : s.lookupFile p = none) (hd : s.dirs.contains p = false)
    (hc : fl.create = false) :
    osOpenFile s p fl perm = (.error (.enoent p), s) := by
  have hd2 : p ∉ s.dirs := by simpa using hd
  unfold osOpenFile
  simp [hd, hd2, hf, hc]

lemma verifyExists_present {c : Config} {name : String} {s : Sys}
    (h : existsPath s (c.child name) = true) :
    c.verifyExists name s = (.ok (), s) := by
  unfold Config.verifyExists Config.Exists
  rw [if_pos h]

lemma verifyExists_noDefault {c : Config} {name : String} {s : Sys}
    (hnd : c.defaults.find? (fun e => e.1 = name) = none)
    (habs : existsPath s (c.child name) = false) :
    c.verifyExists name s = (.error (.doesNotExist name), s) := by
  unfold Config.verifyExists Config.Exists
  rw [habs, hnd]
  rfl

lemma verifyExists_default {c : Config} {name : String} {bs : Bytes} {pm : Nat} {s : Sys}
    (hd : c.defaults.find? (fun e => e.1 = name) = some (name, { gen := .ok bs, perm := pm }))
    (habs : existsPath s (c.child name) = false) :
    c.verifyExists name s =
      (.ok (), { dirs := s.dirs,
                 files := insertFile s.files (c.child name) { content := bs, perm := pm },
                 openIds := (s.nextId, c.child name) :: s.openIds,
                 nextId := s.nextId + 1 }) := by
  obtain ⟨hf, hdir⟩ := existsPath_false_elim habs
  have step1 : c.verifyExists name s =
      match osOpenFile s (c.child name) flagsCreateExcl pm with
      | (.error err, s1) => (.error err, s1)
      | (.ok id, s1) => (.ok (), handleWrite s1 id bs) := by
    unfold Config.verifyExists Config.Exists Config.OpenCreate Config.OpenRaw
    rw [habs, hd]
    rfl
  have hlook : (Sys.mk s.dirs
        (insertFile s.files (c.child name) { content := [], perm := pm })
        ((s.nextId, c.child name) :: s.openIds) (s.nextId + 1)).lookupFile (c.child name)
      = some { content := [], perm := pm } := by
    unfold Sys.lookupFile
    show ((insertFile s.files (c.child name) _).find? _).map _ = _
    rw [find?_insertFile_self]
    rfl
  have step2 : handleWrite
      (Sys.mk s.dirs (insertFile s.files (c.child name) { content := [], perm := pm })
        ((s.nextId, c.child name) :: s.openIds) (s.nextId + 1)) s.nextId bs
      = Sys.mk s.dirs (insertFile s.files (c.child name) { content := bs, perm := pm })
          ((s.nextId, c.child name) :: s.openIds) (s.nextId + 1) := by
    rw [handleWrite_head rfl hlook bs]
    simp [Sys.setFile, insertFile_insertFile]
  rw [step1, osOpenFile_create_new hf hdir]
  exact congrArg (Prod.mk (Except.ok ())) step2

lemma OpenRead_file {c : Config} {name : String} {fd : FileData} {s : Sys}
    (hf : s.lookupFile (c.child name) = some fd)
    (hdir : s.dirs.contains (c.child name) = false) :
    c.OpenRead name s =
      (.ok s.nextId,
        { s with openIds := (s.nextId, c.child name) :: s.openIds,
                 nextId := s.nextId + 1 }) := by
  unfold Config.OpenRead
  rw [verifyExists_present (existsPath_some hf)]
  show c.OpenRaw name flagsRead 0 s = _
  unfold Config.OpenRaw
  rw [osOpenFile_read_file hf hdir]

lemma OpenWrite_file {c : Config} {name : String} {fd : FileData} {s : Sys}
    (hf : s.lookupFile (c.child name) = some fd)
    (hdir : s.dirs.contains (c.child name) = false) :
    c.OpenWrite name s =
      (.ok s.nextId,
        Sys.mk s.dirs (insertFile s.files (c.child name) { content := [], perm := fd.perm })
          ((s.nextId, c.child name) :: s.openIds) (s.nextId + 1)) := by
  unfold Config.OpenWrite
  rw [verifyExists_present (existsPath_some hf)]
  show c.OpenRaw name flagsWriteTrunc 0 s = _
  unfold Config.OpenRaw
  rw [osOpenFile_write_file hf hdir]

lemma Read_file {c : Config} {name : String} {fd : FileData} {s : Sys}
    (hf : s.lookupFile (c.child name) = some fd)
    (hdir : s.dirs.contains (c.child name) = false) :
    c.Read name s =
      (.ok fd.content,
        closeQuiet
          { s with openIds := (s.nextId, c.child name) :: s.openIds,
                   nextId := s.nextId + 1 }
          s.nextId) := by
  unfold Config.Read
  rw [OpenRead_file hf hdir]
  show (readAllHandle _ s.nextId, closeQuiet _ s.nextId) = _
  rw [readAllHandle_head rfl (by exact hf)]

/-! The claims. -/

/-- Concrete handle used by the concrete-input theorems: a directory /cfg
with a registered default for the file f (content bytes 1,2,3 and
permission bits 0o644 = 420). -/
def c1conf : Config :=
  { defaults := [("f", { gen := .ok [1, 2, 3], perm := 420 })],
    closers := [], path := "/cfg" }

/-- Concrete filesystem for the concrete-input theorems: the /cfg directory
exists and holds no files. -/
def c1sys : Sys := { dirs := ["/cfg"], files := [], openIds := [], nextId := 0 }

/-- C1, counterexample: with the default bytes 1,2,3 registered for f and no
existing file, the write-family accessor OpenWrite materialises the default
and then immediately truncates it, so the file is left empty and a
subsequent read returns the empty content, not the generator output. -/
theorem c1_counterexample :
    ((c1conf.OpenWrite "f" c1sys).2).lookupFile "/cfg/f"
        = some { content := [], perm := 420 } ∧
    (c1conf.Read "f" ((c1conf.OpenWrite "f" c1sys).2)).1 = .ok [] ∧
    ([] : Bytes) ≠ [1, 2, 3] :=
  ⟨rfl, rfl, by decide⟩

/-- C1 (amended): for a filename with a registered default (generator
succeeding with output bs, permission bits pm) and no pre-existing file, a
first read-family access creates the file with exactly permission pm and
content bs and returns bs, a subsequent read returns bs unchanged, while a
first write-family access creates the file with permission pm but leaves
it truncated empty (the write-only-truncate open empties the freshly
generated content). -/
theorem c1_default_materialisation {c : Config} {name : String} {bs : Bytes} {pm : Nat}
    {s : Sys}
    (hd : c.defaults.find? (fun e => e.1 = name)
        = some (name, { gen := .ok bs, perm := pm }))
    (habs : existsPath s (c.child name) = false) :
    (c.Read name s).1 = .ok bs ∧
    ((c.Read name s).2).lookupFile (c.child name) = some { content := bs, perm := pm } ∧
    (c.Read name ((c.Read name s).2)).1 = .ok bs ∧
    ((c.OpenWrite name s).2).lookupFile (c.child name)
      = some { content := [], perm := pm } := by
  obtain ⟨hf0, hdir⟩ := existsPath_false_elim habs
  have hve := verifyExists_default hd habs
  have hf1 : (Sys.mk s.dirs (insertFile s.files (c.child name) { content := bs, perm := pm })
      ((s.nextId, c.child name) :: s.openIds) (s.nextId + 1)).lookupFile (c.child name)
      = some { content := bs, perm := pm } := by
    unfold Sys.lookupFile
    show ((insertFile s.files (c.child name) _).find? _).map _ = _
    rw [find?_insertFile_self]
    rfl
  have hdir1 : (Sys.mk s.dirs
      (insertFile s.files (c.child name) { content := bs, perm := pm })
      ((s.nextId, c.child name) :: s.openIds) (s.nextId + 1)).dirs.contains (c.child name)
      = false := by exact hdir
  have hOR : c.OpenRead name s =
      (.ok (s.nextId + 1),
        Sys.mk s.dirs (insertFile s.files (c.child name) { content := bs, perm := pm })
          ((s.nextId + 1, c.child name) :: (s.nextId, c.child name) :: s.openIds)
          (s.nextId + 1 + 1)) := by
    unfold Config.OpenRead
    rw [hve]
    show c.OpenRaw name flagsRead 0 _ = _
    unfold Config.OpenRaw
    rw [osOpenFile_read_file hf1 hdir1]
  have hRead : c.Read name s =
      (.ok bs,
        closeQuiet
          (Sys.mk s.dirs (insertFile s.files (c.child name) { content := bs, perm := pm })
            ((s.nextId + 1, c.child name) :: (s.nextId, c.child name) :: s.openIds)
            (s.nextId + 1 + 1))
          (s.nextId + 1)) := by
    unfold Config.Read
    rw [hOR]
    show (readAllHandle _ (s.nextId + 1), closeQuiet _ (s.nextId + 1)) = _
    rw [readAllHandle_head rfl (by exact hf1)]
  have hlook2 : ((c.Read name s).2).lookupFile (c.child name)
      = some { content := bs, perm := pm } := by
    rw [hRead]
    show (closeQuiet _ _).lookupFile _ = _
    rw [closeQuiet_lookupFile]
    exact hf1
  have hdir2 : ((c.Read name s).2).dirs.contains (c.child name) = false := by
    rw [hRead]
    show (closeQuiet _ _).dirs.contains _ = false
    rw [closeQuiet_dirs]
    exact hdir
  refine ⟨by rw [hRead], hlook2, ?_, ?_⟩
  · rw [Read_file hlook2 hdir2]
  · have hOW : c.OpenWrite name s =
        (.ok (s.nextId + 1),
          Sys.mk s.dirs
            (insertFile
              (insertFile s.files (c.child name) { content := bs, perm := pm })
              (c.child name) { content := [], perm := pm })
            ((s.nextId + 1, c.child name) :: (s.nextId, c.child name) :: s.openIds)
            (s.nextId + 1 + 1)) := by
      unfold Config.OpenWrite
      rw [hve]
      show c.OpenRaw name flagsWriteTrunc 0 _ = _
      unfold Config.OpenRaw
      rw [osOpenFile_write_file hf1 hdir1]
    rw [hOW]
    unfold Sys.lookupFile
    show ((insertFile _ (c.child name) _).find? _).map _ = _
    rw [find?_insertFile_self]
    rfl

/-- C1, witness at the concrete scenario: the default for f is absent on
disk, and the first read-family access returns exactly the generator
output. -/
theorem c1_witness :
    existsPath c1sys (c1conf.child "f") = false ∧
    (c1conf.Read "f" c1sys).1 = .ok [1, 2, 3] :=
  ⟨rfl, (c1_default_materialisation (by rfl) (by rfl)).1⟩

/-- C2: DeleteFile ignores its filename argument and removes the entire
bound directory: on every handle and state its effect is exactly that of
Delete, for every filename. -/
theorem c2_deleteFile_deletes_directory (c : Config) (s : Sys) :
    (∀ name, c.DeleteFile name s = c.Delete s) ∧
    (∀ n1 n2, c.DeleteFile n1 s = c.DeleteFile n2 s) :=
  ⟨fun _ => rfl, fun _ _ => rfl⟩

/-- Concrete filesystem in which the current directory "." exists, used to
evaluate OpenSpecific on the empty path. -/
def c3sys : Sys := { dirs := ["."], files := [], openIds := [], nextId := 0 }

/-- C3, counterexample: on the empty-string path OpenSpecific does not
abort; filepath.Clean maps "" to ".", the emptiness guard sees ".", and a
handle bound to "." is returned. -/
theorem c3_counterexample :
    (OpenSpecific "" c3sys).isPanic = false ∧
    OpenSpecific "" c3sys
      = .ok (.ok { defaults := [], closers := [], path := "." }, c3sys) :=
  ⟨rfl, rfl⟩

lemma openSpecific_eq (path : String) (s : Sys) :
    OpenSpecific path s =
      match ({ defaults := [], closers := [], path := clean path } : Config).createDir s with
      | (.error e, s1) => .ok (.error e, s1)
      | (.ok _, s1) =>
        .ok (.ok { defaults := [], closers := [], path := clean path }, s1) := by
  unfold OpenSpecific
  rw [if_neg (clean_ne_empty path)]

/-- C3 (amended): OpenSpecific never reaches its empty-path panic, because
Clean never returns an empty string; in particular the empty-string input
behaves exactly like ".". -/
theorem c3_empty_path_no_panic :
    (∀ path s, (OpenSpecific path s).isPanic = false) ∧
    (∀ s, OpenSpecific "" s = OpenSpecific "." s) := by
  constructor
  · intro path s
    rw [openSpecific_eq]
    rcases h : ({ defaults := [], closers := [], path := clean path } : Config).createDir s
      with ⟨r, s1⟩
    cases r with
    | error e => rfl
    | ok u => rfl
  · intro s
    rfl

/-- C4: for a filename with no registered default and no existing file,
every modelled read-family and write-family accessor fails with the
does-not-exist domain error carrying the filename, and returns the
filesystem state unchanged. -/
theorem c4_missing_no_default {c : Config} {name : String} {s : Sys}
    (hnd : c.defaults.find? (fun e => e.1 = name) = none)
    (habs : existsPath s (c.child name) = false) :
    c.OpenRead name s = (.error (.doesNotExist name), s) ∧
    c.OpenWrite name s = (.error (.doesNotExist name), s) ∧
    c.Read name s = (.error (.doesNotExist name), s) ∧
    c.ReadString name s = (.error (.doesNotExist name), s) ∧
    (∀ data, c.Write name data s = (.error (.doesNotExist name), s)) ∧
    (∀ str, c.WriteString name str s = (.error (.doesNotExist name), s)) ∧
    c.OpenReadAuto name s = (.error (.doesNotExist name), c, s) ∧
    c.OpenWriteAuto name s = (.error (.doesNotExist name), c, s) ∧
    (∀ (dec : Bytes → Except Err Bytes),
      c.readCodec name dec s = (.error (.doesNotExist name), s)) ∧
    (∀ payload, c.writeCodec name payload s = (.error (.doesNotExist name), s)) := by
  have hve := verifyExists_noDefault hnd habs
  have hor : c.OpenRead name s = (.error (.doesNotExist name), s) := by
    unfold Config.OpenRead
    rw [hve]
  have how : c.OpenWrite name s = (.error (.doesNotExist name), s) := by
    unfold Config.OpenWrite
    rw [hve]
  have hread : c.Read name s = (.error (.doesNotExist name), s) := by
    unfold Config.Read
    rw [hor]
  refine ⟨hor, how, hread, ?_, ?_, ?_, ?_, ?_, ?_, ?_⟩
  · unfold Config.ReadString
    rw [hread]
  · intro data
    unfold Config.Write
    rw [how]
  · intro str
    unfold Config.WriteString Config.Write
    rw [how]
  · unfold Config.OpenReadAuto
    rw [hor]
  · unfold Config.OpenWriteAuto
    rw [how]
  · intro dec
    unfold Config.readCodec
    rw [hor]
  · intro payload
    unfold Config.writeCodec
    rw [how]

/-- C4, witness: a handle on /cfg with no defaults, a filesystem holding
only the directory; reading the absent file g fails with the domain error
and leaves the state untouched. -/
theorem c4_witness :
    existsPath c1sys (Config.child { defaults := [], closers := [], path := "/cfg" } "g")
        = false ∧
    Config.Read { defaults := [], closers := [], path := "/cfg" } "g" c1sys
      = (.error (.doesNotExist "g"), c1sys) :=
  ⟨rfl, (c4_missing_no_default (by rfl) (by rfl)).2.2.1⟩

/-- C5: for a filename that already exists under the handle's directory
(as file or subdirectory), every modelled create-family operation fails
with the EEXIST condition on that path and returns the filesystem state
unchanged, so the existing content is untouched. -/
theorem c5_create_on_existing {c : Config} {name : String} {s : Sys}
    (hex : existsPath s (c.child name) = true) :
    (∀ pm, c.OpenCreate name pm s = (.error (.eexist (c.child name)), s)) ∧
    (∀ pm data, c.Create name data pm s = (.error (.eexist (c.child name)), s)) ∧
    (∀ pm str, c.CreateString name str pm s = (.error (.eexist (c.child name)), s)) ∧
    (∀ pm, c.OpenCreateAuto name pm s = (.error (.eexist (c.child name)), c, s)) ∧
    (∀ pm payload, c.createCodec name payload pm s
        = (.error (.eexist (c.child name)), s)) := by
  have hoc : ∀ pm, c.OpenCreate name pm s = (.error (.eexist (c.child name)), s) := by
    intro pm
    unfold Config.OpenCreate Config.OpenRaw
    rw [osOpenFile_excl_exists hex]
  refine ⟨hoc, ?_, ?_, ?_, ?_⟩
  · intro pm data
    unfold Config.Create
    rw [hoc]
  · intro pm str
    unfold Config.CreateString Config.Create
    rw [hoc]
  · intro pm
    unfold Config.OpenCreateAuto
    rw [hoc]
  · intro pm payload
    unfold Config.createCodec
    rw [hoc]

/-- C5, witness: f already exists under /data; creating it again with any
content fails with EEXIST and the state is unchanged. -/
theorem c5_witness :
    existsPath
        { dirs := ["/data"], files := [("/data/f", { content := [7], perm := 420 })],
          openIds := [], nextId := 0 }
        (Config.child { defaults := [], closers := [], path := "/data" } "f") = true ∧
    Config.Create { defaults := [], closers := [], path := "/data" } "f" [9] 384
        { dirs := ["/data"], files := [("/data/f", { content := [7], perm := 420 })],
          openIds := [], nextId := 0 }
      = (.error (.eexist "/data/f"),
        { dirs := ["/data"], files := [("/data/f", { content := [7], perm := 420 })],
          openIds := [], nextId := 0 }) :=
  ⟨rfl, (c5_create_on_existing (by rfl)).2.1 384 [9]⟩

/-- C6: if opening a handle on a path succeeds, opening the same path again
from the resulting state succeeds, returns an identical handle, and leaves
the filesystem state exactly as it was (the second open creates nothing and
modifies nothing). -/
theorem c6_open_idempotent {p : String} {s : Sys} {c : Config} {s1 : Sys}
    (h : OpenSpecific p s = .ok (.ok c, s1)) :
    OpenSpecific p s1 = .ok (.ok c, s1) := by
  have hchild : Config.child { defaults := [], closers := [], path := clean p } "" = clean p := by
    show goJoin [clean p, ""] = clean p
    rw [goJoin_pair_empty (clean p) (clean_ne_empty p), clean_idem]
  rw [openSpecific_eq] at h ⊢
  rcases hcd : ({ defaults := [], closers := [], path := clean p } : Config).createDir s
    with ⟨r, s2⟩
  rw [hcd] at h
  cases r with
  | error e => simp at h
  | ok u =>
    simp only [POr.ok.injEq, Prod.mk.injEq, Except.ok.injEq] at h
    obtain ⟨hc, hs⟩ := h
    have hex2 : existsPath s1 (clean p) = true := by
      unfold Config.createDir Config.Exists at hcd
      rw [hchild] at hcd
      by_cases hex : existsPath s (clean p) = true
      · rw [if_pos hex] at hcd
        simp only [Prod.mk.injEq] at hcd
        rw [← hs, ← hcd.2]
        exact hex
      · rw [if_neg hex] at hcd
        unfold osMkdir at hcd
        rw [show ({ defaults := [], closers := [], path := clean p } : Config).path
            = clean p from rfl] at hcd
        by_cases hex3 : existsPath s (clean p) = true
        · rw [if_pos hex3] at hcd
          simp at hcd
        · rw [if_neg hex3] at hcd
          simp only [Prod.mk.injEq] at hcd
          rw [← hs, ← hcd.2]
          show existsPath (Sys.mk (clean p :: s.dirs) s.files s.openIds s.nextId)
            (clean p) = true
          unfold existsPath
          simp [List.contains_cons]
    have hgoal : ({ defaults := [], closers := [], path := clean p } : Config).createDir s1
        = (.ok (), s1) := by
      unfold Config.createDir Config.Exists
      rw [hchild, if_pos hex2]
    rw [hgoal, ← hc]

/-- C6, witness: opening /a on an empty filesystem creates the directory;
opening it again from the resulting state returns the same handle and the
same state. -/
theorem c6_witness :
    OpenSpecific "/a" (Sys.mk [] [] [] 0)
        = .ok (.ok { defaults := [], closers := [], path := "/a" }
            , Sys.mk ["/a"] [] [] 0) ∧
    OpenSpecific "/a" (Sys.mk ["/a"] [] [] 0)
        = .ok (.ok { defaults := [], closers := [], path := "/a" }
            , Sys.mk ["/a"] [] [] 0) :=
  ⟨rfl, c6_open_idempotent (s := Sys.mk [] [] [] 0) (by rfl)⟩

lemma writeCodec_ok {c : Config} {name : String} {fd : FileData} {s : Sys} (w : Bytes)
    (hf : s.lookupFile (c.child name) = some fd)
    (hdir : s.dirs.contains (c.child name) = false) :
    c.writeCodec name (.ok w) s =
      (.ok (),
        closeQuiet
          (Sys.mk s.dirs (insertFile s.files (c.child name) { content := w, perm := fd.perm })
            ((s.nextId, c.child name) :: s.openIds) (s.nextId + 1))
          s.nextId) := by
  have hlook : (Sys.mk s.dirs
      (insertFile s.files (c.child name) { content := [], perm := fd.perm })
      ((s.nextId, c.child name) :: s.openIds) (s.nextId + 1)).lookupFile (c.child name)
      = some { content := [], perm := fd.perm } := by
    unfold Sys.lookupFile
    show ((insertFile s.files (c.child name) _).find? _).map _ = _
    rw [find?_insertFile_self]
    rfl
  have hw : handleWrite
      (Sys.mk s.dirs (insertFile s.files (c.child name) { content := [], perm := fd.perm })
        ((s.nextId, c.child name) :: s.openIds) (s.nextId + 1)) s.nextId w
      = Sys.mk s.dirs (insertFile s.files (c.child name) { content := w, perm := fd.perm })
          ((s.nextId, c.child name) :: s.openIds) (s.nextId + 1) := by
    rw [handleWrite_head rfl hlook w]
    simp [Sys.setFile, insertFile_insertFile]
  unfold Config.writeCodec
  rw [OpenWrite_file hf hdir]
  show ((Except.ok () : Except Err Unit), closeQuiet (handleWrite _ s.nextId w) s.nextId) = _
  rw [hw]

lemma readCodec_file {α : Type} {c : Config} {name : String} {fd : FileData} {s : Sys}
    (dec : Bytes → Except Err α)
    (hf : s.lookupFile (c.child name) = some fd)
    (hdir : s.dirs.contains (c.child name) = false) :
    (c.readCodec name dec s).1 = dec fd.content := by
  have h1 : readAllHandle
      { s with openIds := (s.nextId, c.child name) :: s.openIds, nextId := s.nextId + 1 }
      s.nextId = .ok fd.content := readAllHandle_head rfl (by exact hf)
  simp only [Config.readCodec, OpenRead_file hf hdir, h1]

lemma codec_roundtrip {α : Type} {c : Config} {name : String} {fd : FileData} {s : Sys}
    {w : Bytes} (dec : Bytes → Except Err α) {v : α}
    (hf : s.lookupFile (c.child name) = some fd)
    (hdir : s.dirs.contains (c.child name) = false)
    (hdec : dec w = .ok v) :
    (c.writeCodec name (.ok w) s).1 = .ok () ∧
    (c.readCodec name dec ((c.writeCodec name (.ok w) s).2)).1 = .ok v := by
  rw [writeCodec_ok w hf hdir]
  have hf2 : (closeQuiet
      (Sys.mk s.dirs (insertFile s.files (c.child name) { content := w, perm := fd.perm })
        ((s.nextId, c.child name) :: s.openIds) (s.nextId + 1)) s.nextId).lookupFile
      (c.child name) = some { content := w, perm := fd.perm } := by
    rw [closeQuiet_lookupFile]
    unfold Sys.lookupFile
    show ((insertFile s.files (c.child name) _).find? _).map _ = _
    rw [find?_insertFile_self]
    rfl
  have hdir2 : (closeQuiet
      (Sys.mk s.dirs (insertFile s.files (c.child name) { content := w, perm := fd.perm })
        ((s.nextId, c.child name) :: s.openIds) (s.nextId + 1)) s.nextId).dirs.contains
      (c.child name) = false := by
    rw [closeQuiet_dirs]
    exact hdir
  exact ⟨rfl, by rw [readCodec_file dec hf2 hdir2, hdec]⟩

/-- C7: for each structured format, with the third-party codec abstracted
as an encode and decode pair, writing a value whose encoding succeeds to an
existing file through the typed write accessor and reading it back through
the matching typed read accessor returns the original value, whenever the
codec round-trips that value (decode of encode yields the value — the
meaning of serializable up to format-appropriate equality). -/
theorem c7_typed_roundtrip {α β γ : Type} {c : Config} {name : String} {fd : FileData}
    {s : Sys}
    (hf : s.lookupFile (c.child name) = some fd)
    (hdir : s.dirs.contains (c.child name) = false)
    (encJ : α → Except Err Bytes) (decJ : Bytes → Except Err α) (vJ : α) (wJ : Bytes)
    (hJ1 : encJ vJ = .ok wJ) (hJ2 : decJ wJ = .ok vJ)
    (encT : β → Except Err Bytes) (decT : Bytes → Except Err β) (vT : β) (wT : Bytes)
    (hT1 : encT vT = .ok wT) (hT2 : decT wT = .ok vT)
    (encC : List (List String) → Except Err Bytes)
    (decC : Bytes → Except Err (List (List String)))
    (vC : List (List String)) (wC : Bytes)
    (hC1 : encC vC = .ok wC) (hC2 : decC wC = .ok vC)
    (encX : γ → Except Err Bytes) (decX : Bytes → Except Err γ) (vX : γ) (wX : Bytes)
    (hX1 : encX vX = .ok wX) (hX2 : decX wX = .ok vX) :
    ((c.WriteJson name encJ vJ s).1 = .ok () ∧
      (c.ReadJson name decJ ((c.WriteJson name encJ vJ s).2)).1 = .ok vJ) ∧
    ((c.WriteToml name encT vT s).1 = .ok () ∧
      (c.ReadToml name decT ((c.WriteToml name encT vT s).2)).1 = .ok vT) ∧
    ((c.WriteCsv name encC vC s).1 = .ok () ∧
      (c.ReadCsv name decC ((c.WriteCsv name encC vC s).2)).1 = .ok vC) ∧
    ((c.WriteXml name encX vX s).1 = .ok () ∧
      (c.ReadXml name decX ((c.WriteXml name encX vX s).2)).1 = .ok vX) := by
  refine ⟨?_, ?_, ?_, ?_⟩
  · have h := codec_roundtrip decJ hf hdir hJ2
    constructor
    · show (c.writeCodec name (encJ vJ) s).1 = _
      rw [hJ1]
      exact h.1
    · show (c.readCodec name decJ ((c.writeCodec name (encJ vJ) s).2)).1 = _
      rw [hJ1]
      exact h.2
  · have h := codec_roundtrip decT hf hdir hT2
    constructor
    · show (c.writeCodec name (encT vT) s).1 = _
      rw [hT1]
      exact h.1
    · show (c.readCodec name decT ((c.writeCodec name (encT vT) s).2)).1 = _
      rw [hT1]
      exact h.2
  · have h := codec_roundtrip decC hf hdir hC2
    constructor
    · show (c.writeCodec name (encC vC) s).1 = _
      rw [hC1]
      exact h.1
    · show (c.readCodec name decC ((c.writeCodec name (encC vC) s).2)).1 = _
      rw [hC1]
      exact h.2
  · have h := codec_roundtrip decX hf hdir hX2
    constructor
    · show (c.writeCodec name (encX vX) s).1 = _
      rw [hX1]
      exact h.1
    · show (c.readCodec name decX ((c.writeCodec name (encX vX) s).2)).1 = _
      rw [hX1]
      exact h.2

/-- C7, witness: on a file that exists under /d, with the identity codec on
byte lists for all four formats, writing the value 5 and reading it back
returns 5. -/
theorem c7_witness :
    (Sys.mk ["/d"] [("/d/f", { content := [0], perm := 420 })] [] 0).lookupFile
        (Config.child { defaults := [], closers := [], path := "/d" } "f")
        = some { content := [0], perm := 420 } ∧
    (Config.WriteJson { defaults := [], closers := [], path := "/d" } "f"
        (fun b => (.ok b : Except Err Bytes)) [5]
        (Sys.mk ["/d"] [("/d/f", { content := [0], perm := 420 })] [] 0)).1 = .ok () ∧
    (Config.ReadJson { defaults := [], closers := [], path := "/d" } "f"
        (fun b => (.ok b : Except Err Bytes))
        ((Config.WriteJson { defaults := [], closers := [], path := "/d" } "f"
          (fun b => (.ok b : Except Err Bytes)) [5]
          (Sys.mk ["/d"] [("/d/f", { content := [0], perm := 420 })] [] 0)).2)).1
      = .ok [5] := by
  refine ⟨rfl, ?_⟩
  exact (c7_typed_roundtrip
    (show (Sys.mk ["/d"] [("/d/f", { content := [0], perm := 420 })] [] 0).lookupFile
        (Config.child { defaults := [], closers := [], path := "/d" } "f")
        = some { content := [0], perm := 420 } from rfl)
    (show (Sys.mk ["/d"] [("/d/f", { content := [0], perm := 420 })] [] 0).dirs.contains
        (Config.child { defaults := [], closers := [], path := "/d" } "f")
        = false from rfl)
    (fun b => (.ok b : Except Err Bytes)) (fun b => (.ok b : Except Err Bytes)) [5] [5]
      rfl rfl
    (fun b => (.ok b : Except Err Bytes)) (fun b => (.ok b : Except Err Bytes)) [5] [5]
      rfl rfl
    (fun _ => (.ok [] : Except Err Bytes))
      (fun _ => (.ok [] : Except Err (List (List String)))) [] [] rfl rfl
    (fun b => (.ok b : Except Err Bytes)) (fun b => (.ok b : Except Err Bytes)) [5] [5]
      rfl rfl).1

/-- C9: the reinterpretation-based JoinP returns, for every base path and
every sequence of wrapped paths, exactly the Path produced by extracting
each element's underlying string into a fresh sequence and calling Join on
it. -/
theorem c9_joinP_refines_map (p : GoPath) (elem : List GoPath) :
    p.JoinP elem = joinPViaFreshStrings p elem ∧
    p.JoinP elem = p.Join (elem.map (fun e => e.str)) :=
  ⟨rfl, rfl⟩

lemma closeHandle_self_closed (s : Sys) (id : Nat) :
    ((closeHandle s id).2).isOpen id = false := by
  unfold closeHandle
  by_cases h : s.isOpen id = true
  · rw [if_pos h]
    show Sys.isOpen _ id = false
    unfold Sys.isOpen
    show (s.openIds.filter _).any _ = false
    rw [List.any_eq_false]
    intro e he
    have h2 := (List.mem_filter.mp he).2
    simp at h2 ⊢
    exact h2
  · rw [if_neg h]
    show s.isOpen id = false
    simpa using h

lemma isOpen_closeHandle_other {s : Sys} {id j : Nat} (h : ¬ j = id) :
    ((closeHandle s id).2).isOpen j = s.isOpen j := by
  unfold closeHandle
  by_cases ho : s.isOpen id = true
  · rw [if_pos ho]
    show Sys.isOpen _ j = _
    unfold Sys.isOpen
    show (s.openIds.filter _).any _ = s.openIds.any _
    cases hb : s.openIds.any (fun e => e.1 = j) with
    | true =>
      rw [List.any_eq_true] at hb
      obtain ⟨e, he, hej⟩ := hb
      rw [List.any_eq_true]
      refine ⟨e, List.mem_filter.mpr ⟨he, ?_⟩, hej⟩
      have he1 : e.1 = j := by simpa using hej
      simp [he1, h]
    | false =>
      rw [List.any_eq_false] at hb
      rw [List.any_eq_false]
      intro e he
      exact hb e (List.mem_filter.mp he).1
  · rw [if_neg ho]

lemma isOpen_closeQuiet_other {s : Sys} {id j : Nat} (h : ¬ j = id) :
    (closeQuiet s id).isOpen j = s.isOpen j := isOpen_closeHandle_other h

lemma closeHandle_isOpen_le {s : Sys} {id j : Nat}
    (h : ((closeHandle s id).2).isOpen j = true) : s.isOpen j = true := by
  unfold closeHandle at h
  by_cases ho : s.isOpen id = true
  · rw [if_pos ho] at h
    unfold Sys.isOpen at h ⊢
    rw [List.any_eq_true] at h ⊢
    obtain ⟨e, he, hej⟩ := h
    exact ⟨e, (List.mem_filter.mp he).1, hej⟩
  · rwa [if_neg ho] at h

lemma closeAll_isOpen_mono {l : List Nat} {j : Nat} : ∀ {s : Sys},
    ((closeAll l s).2).isOpen j = true → s.isOpen j = true := by
  induction l with
  | nil => intro s h; exact h
  | cons a rest ih =>
    intro s h
    unfold closeAll at h
    rcases hch : closeHandle s a with ⟨r, s1⟩
    rw [hch] at h
    cases r with
    | error e =>
      have h0 : (match closeAll rest s1 with
          | (errs, s2) => ((e :: errs : List Err), s2)).2.isOpen j = true := h
      rcases hca : closeAll rest s1 with ⟨errs, s2⟩
      rw [hca] at h0
      have h3 : s1.isOpen j = true := ih (s := s1) (by rw [hca]; exact h0)
      exact closeHandle_isOpen_le (by rw [hch]; exact h3)
    | ok u =>
      have h3 : s1.isOpen j = true := ih (s := s1) h
      exact closeHandle_isOpen_le (by rw [hch]; exact h3)

lemma closeAll_spec : ∀ (l : List Nat), l.Nodup → ∀ s : Sys,
    (closeAll l s).1.length = (l.filter (fun id => !(s.isOpen id))).length ∧
    ∀ id ∈ l, ((closeAll l s).2).isOpen id = false := by
  intro l
  induction l with
  | nil => intro _ s; exact ⟨rfl, by simp⟩
  | cons a rest ih =>
    intro hn s
    obtain ⟨hna, hnr⟩ := List.nodup_cons.mp hn
    by_cases hoa : s.isOpen a = true
    · have hch : closeHandle s a =
          (.ok (), { s with openIds := s.openIds.filter (fun e => decide (¬ e.1 = a)) }) := by
        unfold closeHandle
        rw [if_pos hoa]
      have hred : closeAll (a :: rest) s = closeAll rest
          { s with openIds := s.openIds.filter (fun e => decide (¬ e.1 = a)) } := by
        simp only [closeAll, hch]
      have hs1 : ({ s with openIds := s.openIds.filter (fun e => decide (¬ e.1 = a)) } : Sys)
          = (closeHandle s a).2 := by rw [hch]
      obtain ⟨ihlen, ihopen⟩ :=
        ih hnr { s with openIds := s.openIds.filter (fun e => decide (¬ e.1 = a)) }
      constructor
      · rw [hred, ihlen]
        have hfilter : rest.filter
            (fun id => !(Sys.isOpen
              { s with openIds := s.openIds.filter (fun e => decide (¬ e.1 = a)) } id))
            = rest.filter (fun id => !(s.isOpen id)) := by
          apply List.filter_congr
          intro id hid
          have hne : ¬ id = a := fun he => hna (he ▸ hid)
          rw [hs1, isOpen_closeHandle_other hne]
        rw [hfilter, List.filter_cons_of_neg (by simp [hoa])]
      · intro id hid
        rcases List.mem_cons.mp hid with h1 | h1
        · subst h1
          rw [hred]
          have hs1a : Sys.isOpen
              { s with openIds := s.openIds.filter (fun e => decide (¬ e.1 = id)) } id
              = false := by
            rw [hs1]
            exact closeHandle_self_closed s id
          cases hfin : ((closeAll rest
              { s with openIds := s.openIds.filter (fun e => decide (¬ e.1 = id)) }).2).isOpen
              id with
          | false => rfl
          | true => exact absurd (closeAll_isOpen_mono hfin) (by simpa using hs1a)
        · rw [hred]
          exact ihopen id h1
    · have hch : closeHandle s a = (.error .errClosed, s) := by
        unfold closeHandle
        rw [if_neg hoa]
      have hoaf : s.isOpen a = false := by simpa using hoa
      rcases hca : closeAll rest s with ⟨errs, s2⟩
      have hred : closeAll (a :: rest) s = (Err.errClosed :: errs, s2) := by
        simp only [closeAll, hch, hca]
      have hlen := (ih hnr s).1
      rw [hca] at hlen
      simp only [] at hlen
      have hopen := (ih hnr s).2
      constructor
      · rw [hred]
        show (Err.errClosed :: errs).length = _
        rw [List.filter_cons_of_pos (by simp [hoaf]), List.length_cons, List.length_cons]
        rw [show (errs.length = (List.filter (fun id => !s.isOpen id) rest).length)
          from hlen]
      · intro id hid
        rcases List.mem_cons.mp hid with h1 | h1
        · subst h1
          rw [hred]
          show s2.isOpen id = false
          cases hfin : s2.isOpen id with
          | false => rfl
          | true =>
            have hmono : s.isOpen id = true :=
              closeAll_isOpen_mono (l := rest) (s := s) (by rw [hca]; exact hfin)
            exact absurd hmono (by simp [hoaf])
        · rw [hred]
          show s2.isOpen id = false
          have h5 := hopen id h1
          rw [hca] at h5
          exact h5

/-- C8: on a handle whose tracked closers are distinct handle ids, bulk
close sweeps every tracked resource: it returns exactly one error per
tracked resource that was already closed or invalid in the starting state,
and afterwards no tracked resource is open. -/
theorem c8_bulk_close {c : Config} {s : Sys} (hn : c.closers.Nodup) :
    (c.Close s).1.length = (c.closers.filter (fun id => !(s.isOpen id))).length ∧
    ∀ id ∈ c.closers, ((c.Close s).2).isOpen id = false := by
  unfold Config.Close
  exact closeAll_spec c.closers hn s

/-- C8, witness: three tracked resources of which exactly one (id 1) is
already closed; bulk close returns exactly one error. -/
theorem c8_witness :
    ([0, 1, 2] : List Nat).Nodup ∧
    (Config.Close { defaults := [], closers := [0, 1, 2], path := "/x" }
        (Sys.mk [] [] [(0, "a"), (2, "b")] 3)).1.length = 1 := by
  constructor
  · decide
  · have h := (c8_bulk_close (c := { defaults := [], closers := [0, 1, 2], path := "/x" })
      (s := Sys.mk [] [] [(0, "a"), (2, "b")] 3) (by decide)).1
    rw [h]
    rfl

/-- C10: when the ensure-exists-or-default gate materialises a registered
default for an absent file, the exclusive-create handle it opened (id
s.nextId) is still open after OpenRead, OpenWrite, and even after Read
(which closes only its own read handle); the Auto open variants append to
the tracked closers exactly their own freshly opened handle — a different
id — so the gate's handle is never appended to the tracked-resource list,
and plain accessors never touch it at all. -/
theorem c10_gate_handle_untracked {c : Config} {name : String} {bs : Bytes} {pm : Nat}
    {s : Sys}
    (hd : c.defaults.find? (fun e => e.1 = name)
        = some (name, { gen := .ok bs, perm := pm }))
    (habs : existsPath s (c.child name) = false)
    (hcl : s.nextId ∉ c.closers) :
    ((c.OpenRead name s).2).isOpen s.nextId = true ∧
    ((c.OpenWrite name s).2).isOpen s.nextId = true ∧
    ((c.Read name s).2).isOpen s.nextId = true ∧
    ((c.OpenReadAuto name s).2.1).closers = c.closers ++ [s.nextId + 1] ∧
    ((c.OpenWriteAuto name s).2.1).closers = c.closers ++ [s.nextId + 1] ∧
    s.nextId ∉ ((c.OpenReadAuto name s).2.1).closers := by
  obtain ⟨hf0, hdir⟩ := existsPath_false_elim habs
  have hve := verifyExists_default hd habs
  have hf1 : (Sys.mk s.dirs (insertFile s.files (c.child name) { content := bs, perm := pm })
      ((s.nextId, c.child name) :: s.openIds) (s.nextId + 1)).lookupFile (c.child name)
      = some { content := bs, perm := pm } := by
    unfold Sys.lookupFile
    show ((insertFile s.files (c.child name) _).find? _).map _ = _
    rw [find?_insertFile_self]
    rfl
  have hdir1 : (Sys.mk s.dirs
      (insertFile s.files (c.child name) { content := bs, perm := pm })
      ((s.nextId, c.child name) :: s.openIds) (s.nextId + 1)).dirs.contains (c.child name)
      = false := by exact hdir
  have hOR : c.OpenRead name s =
      (.ok (s.nextId + 1),
        Sys.mk s.dirs (insertFile s.files (c.child name) { content := bs, perm := pm })
          ((s.nextId + 1, c.child name) :: (s.nextId, c.child name) :: s.openIds)
          (s.nextId + 1 + 1)) := by
    unfold Config.OpenRead
    rw [hve]
    show c.OpenRaw name flagsRead 0 _ = _
    unfold Config.OpenRaw
    rw [osOpenFile_read_file hf1 hdir1]
  have hOW : c.OpenWrite name s =
      (.ok (s.nextId + 1),
        Sys.mk s.dirs
          (insertFile
            (insertFile s.files (c.child name) { content := bs, perm := pm })
            (c.child name) { content := [], perm := pm })
          ((s.nextId + 1, c.child name) :: (s.nextId, c.child name) :: s.openIds)
          (s.nextId + 1 + 1)) := by
    unfold Config.OpenWrite
    rw [hve]
    show c.OpenRaw name flagsWriteTrunc 0 _ = _
    unfold Config.OpenRaw
    rw [osOpenFile_write_file hf1 hdir1]
  have hRead : c.Read name s =
      (.ok bs,
        closeQuiet
          (Sys.mk s.dirs (insertFile s.files (c.child name) { content := bs, perm := pm })
            ((s.nextId + 1, c.child name) :: (s.nextId, c.child name) :: s.openIds)
            (s.nextId + 1 + 1))
          (s.nextId + 1)) := by
    unfold Config.Read
    rw [hOR]
    show (readAllHandle _ (s.nextId + 1), closeQuiet _ (s.nextId + 1)) = _
    rw [readAllHandle_head rfl (by exact hf1)]
  have h4 : ((c.OpenReadAuto name s).2.1).closers = c.closers ++ [s.nextId + 1] := by
    unfold Config.OpenReadAuto
    rw [hOR]
  refine ⟨?_, ?_, ?_, h4, ?_, ?_⟩
  · rw [hOR]
    show Sys.isOpen _ s.nextId = true
    unfold Sys.isOpen
    simp
  · rw [hOW]
    show Sys.isOpen _ s.nextId = true
    unfold Sys.isOpen
    simp
  · rw [hRead]
    show (closeQuiet _ (s.nextId + 1)).isOpen s.nextId = true
    rw [isOpen_closeQuiet_other (by omega)]
    show Sys.isOpen _ s.nextId = true
    unfold Sys.isOpen
    simp
  · unfold Config.OpenWriteAuto
    rw [hOW]
  · rw [h4]
    simp only [List.mem_append, List.mem_singleton]
    push_neg
    exact ⟨hcl, by omega⟩

/-- C10, witness: at the concrete scenario the gate's handle (id 0) is
still open after a Read, and the Auto read tracked only its own handle
(id 1). -/
theorem c10_witness :
    existsPath c1sys (c1conf.child "f") = false ∧
    ((c1conf.Read "f" c1sys).2).isOpen 0 = true ∧
    ((c1conf.OpenReadAuto "f" c1sys).2.1).closers = [1] := by
  refine ⟨rfl, ?_, ?_⟩
  · exact (c10_gate_handle_untracked
      (show c1conf.defaults.find? (fun e => e.1 = "f")
          = some ("f", { gen := .ok [1, 2, 3], perm := 420 }) from rfl)
      (show existsPath c1sys (c1conf.child "f") = false from rfl)
      (show (0 : Nat) ∉ ([] : List Nat) by simp)).2.2.1
  · have h := (c10_gate_handle_untracked
      (show c1conf.defaults.find? (fun e => e.1 = "f")
          = some ("f", { gen := .ok [1, 2, 3], perm := 420 }) from rfl)
      (show existsPath c1sys (c1conf.child "f") = false from rfl)
      (show (0 : Nat) ∉ ([] : List Nat) by simp)).2.2.2.1
    simpa using h
